import Mathlib

/-!
# Verification of the `ews_derive` XML serialization generator

A shallow embedding of the schema-driven XML serialization generator in
`exchange/ews/ews_derive/src/xml_element.rs` and of the runtime capability
contract in `exchange/ews/src/xml.rs`, together with theorems settling the
specification's claims about them.

Conventions of the embedding:
* `syn::Meta` items inside the `#[xml_serialize(...)]` helper attribute are
  modelled by `Meta`; expression values (`syn::Expr` token streams) are
  modelled by `AnnValue`, where `AnnValue.str s` stands for an expression
  whose compile-time string value is `s` (the generated code splices the
  token stream and the constant evaluator resolves it to a string).
* Rust panics / `assert!` failures / `Err` results inside the derive code are
  all build-time failures; the embedding returns `Except String` with the
  source's message strings.
* The runtime XML event writer is modelled by a log of emitted events plus a
  failure schedule (`Nat → Option ε`) deciding, per write, whether the
  underlying sink fails and with which error.
-/

namespace ThunderCell

/-- Expression values appearing in `xml_serialize` annotations.
A `str s` is an expression whose compile-time string value is `s`; a `tuple`
models `syn::Expr::Tuple`, its elements carried by their string values (the
source forwards them as opaque token streams). -/
inductive AnnValue where
  | str (s : String)
  | tuple (elems : List String)
deriving DecidableEq, Repr

/-- The compile-time string value of an annotation expression (namespace
prefixes and URIs are strings once the generated `const` code evaluates). -/
def AnnValue.asString : AnnValue → String
  | .str s => s
  | .tuple _ => ""

/-- A parsed `syn::Meta` item inside the `#[xml_serialize(...)]` attribute:
`name = value` pairs, bare paths, or list-style metas. -/
inductive Meta where
  | nameValue (key : String) (value : AnnValue)
  | path (key : String)
  | metaList (key : String)
deriving DecidableEq, Repr

/-- Returns `true` iff the meta item is a bare path (`Meta::Path`). -/
def Meta.isPath : Meta → Bool
  | .path _ => true
  | _ => false

/-- Model of `XmlNamespace` from the source: a namespace declaration to emit, either
the default namespace or a prefixed one. -/
inductive XmlNamespace where
  | default (uri : AnnValue)
  | prefixed (pfx uri : AnnValue)
deriving DecidableEq, Repr

/-- Model of `TypeOptions` from the source: the optional element-name prefix and the
list of namespace declarations collected from the type's annotations. -/
structure TypeOptions where
  nsPrefix : Option AnnValue := none
  namespaces : List XmlNamespace := []
deriving DecidableEq, Repr

/-- The loop body of `TypeOptions::try_from`: a fold over the meta items
carrying the prefix slot (`ns_prefix`), the `has_set_default` flag, and the
namespaces accumulated so far (the source's `filter_map ... collect`
stops at the first error and otherwise keeps annotation order). -/
def TypeOptions.tryFromGo : List Meta → Option AnnValue → Bool → List XmlNamespace →
    Except String TypeOptions
  | [], pfx, _, acc => .ok { nsPrefix := pfx, namespaces := acc }
  | .nameValue key value :: rest, pfx, hasDefault, acc =>
    if key = "default_ns" then
      if hasDefault then
        .error "there must be at most one `default_ns` declaration per type"
      else
        TypeOptions.tryFromGo rest pfx true (acc ++ [.default value])
    else if key = "ns" then
      match value with
      | .tuple [p, u] =>
          TypeOptions.tryFromGo rest pfx hasDefault (acc ++ [.prefixed (.str p) (.str u)])
      | _ => .error "`ns` takes a single tuple of two elements as argument"
    else if key = "ns_prefix" then
      if pfx.isSome then
        .error "there must be at most one `ns_prefix` declaration per type"
      else
        TypeOptions.tryFromGo rest (some value) hasDefault acc
    else .error "unrecognized attribute for type"
  | _ :: _, _, _, _ => .error "unrecognized attribute for type"

/-- Model of `TypeOptions::try_from` over the meta items of the type's
`xml_serialize` attribute. -/
def TypeOptions.tryFrom (meta : List Meta) : Except String TypeOptions :=
  TypeOptions.tryFromGo meta none false []

/-- Model of `FieldOptions` from the source: whether the field serializes as an XML
attribute rather than a child element. -/
structure FieldOptions where
  is_attribute : Bool
deriving DecidableEq, Repr

/-- The `try_fold` of `FieldOptions::try_from`: bare paths are scanned for
`attribute`, every other meta form is an error. -/
def FieldOptions.tryFromGo : List Meta → Bool → Except String Bool
  | [], acc => .ok acc
  | .path key :: rest, acc => FieldOptions.tryFromGo rest (acc || key = "attribute")
  | _ :: _, _ => .error "unrecognized XML field attribute"

/-- Model of `FieldOptions::try_from` over the meta items of a field's
`xml_serialize` attribute. -/
def FieldOptions.tryFrom (meta : List Meta) : Except String FieldOptions :=
  (FieldOptions.tryFromGo meta false).map (fun b => { is_attribute := b })

/-- ASCII uppercasing, `u8::to_ascii_uppercase`: maps `a`–`z` to `A`–`Z`
and leaves every other character unchanged. -/
def toAsciiUppercase (c : Char) : Char :=
  if 'a' ≤ c ∧ c ≤ 'z' then Char.ofNat (c.toNat - 32) else c

/-- The `filter_map` loop of `ident_to_pascal_case_string`, carrying the
`capitalize_next` flag. -/
def pascalGo : List Char → Bool → List Char
  | [], _ => []
  | c :: cs, capitalizeNext =>
    if c = '_' then pascalGo cs true
    else if capitalizeNext then toAsciiUppercase c :: pascalGo cs false
    else c :: pascalGo cs false

/-- Model of `ident_to_pascal_case_string`: converts a snake_case identifier to
PascalCase by dropping underscores and upper-casing the first character and
each character following a dropped underscore. -/
def ident_to_pascal_case_string (ident : String) : String :=
  ⟨pascalGo ident.toList true⟩

/-! ## Compile-time element-name concatenation

`build_element_name_declaration` emits `const` machinery that concatenates
the namespace prefix with `":" ++ ident` byte by byte. We model the buffer
as a list of characters; an out-of-bounds access in the emitted `const fn`
is a compile-time failure, modelled by `none`. -/

/-- Write `a` at position `n` of the list; `none` when `n` is out of bounds
(a `const`-evaluation panic in the generated code). -/
def setAt {α : Type} : List α → Nat → α → Option (List α)
  | [], _, _ => none
  | _ :: xs, 0, a => some (a :: xs)
  | x :: xs, n + 1, a => (setAt xs n a).map (x :: ·)

/-- The do-while loop of the emitted `copy_bytes_into`, phrased over the
remaining input suffix (position `pos` stands for `offset + index`): the
body writes `output[pos] := input[index]`, increments, and only then tests
`index == input.len()`.  Because the body runs before the exit test, an
empty `input` reads `input[0]` out of bounds — a `const`-evaluation
failure, modelled as `none`. -/
def copyLoop : List Char → List Char → Nat → Option (List Char)
  | [], _, _ => none
  | [b], out, pos => setAt out pos b
  | b :: rest, out, pos => (setAt out pos b).bind (fun out2 => copyLoop rest out2 (pos + 1))

/-- The emitted `copy_bytes_into`: copy `input` into `output` at `offset`. -/
def copy_bytes_into (input output : List Char) (offset : Nat) : Option (List Char) :=
  copyLoop input output offset

/-- The emitted `dirty_concat`: zero a buffer of length
`prefix.length + value.length`, copy the prefix at offset 0 and the value at
offset `prefix.length`. -/
def dirty_concat (pfx value : List Char) : Option (List Char) := do
  let output := List.replicate (pfx.length + value.length) (Char.ofNat 0)
  let output ← copy_bytes_into pfx output 0
  copy_bytes_into value output pfx.length

/-- Model of `build_element_name_declaration`: the value of the emitted
`ELEMENT_NAME` constant.  With a prefix the name is produced by
`dirty_concat pfx (":" ++ ident)`; `none` models a failed `const`
evaluation.  (The final `std::str::from_utf8` check always succeeds in the
character-level model, as concatenating the strings' code points is exactly
decoding the concatenation of their encodings.) -/
def build_element_name (ident : String) (pfx : Option String) : Option String :=
  match pfx with
  | none => some ident
  | some p => (dirty_concat p.toList (":" ++ ident).toList).map (fun l => ⟨l⟩)

/-! ## Field descriptors and the attribute/element call split -/

/-- Model of `Field` from the source, restricted to what serialization calls depend
on: the field's name (absent for positional fields), the accessor token
text, and its parsed options. -/
structure Field where
  ident : Option String
  accessor : String
  options : FieldOptions
deriving DecidableEq, Repr

/-- An emitted attribute-serialization call
`builder = accessor.write_as_attribute(builder, attrName)`. -/
structure AttrCall where
  accessor : String
  attrName : String
deriving DecidableEq, Repr

/-- An emitted element-serialization call
`accessor.write_as_element(writer)?`. -/
structure ElemCall where
  accessor : String
deriving DecidableEq, Repr

/-- A verification no-op call (`verify_attribute_field` /
`verify_element_field`) emitted for compile-time diagnostics. -/
inductive VerifyCall where
  | attribute (accessor : String)
  | element (accessor : String)
deriving DecidableEq, Repr

/-- Model of `Either` from the source, used to split one iterator into two lists. -/
inductive SplitEither (L R : Type) where
  | left (l : L)
  | right (r : R)

/-- The `Extend` implementation for a pair of collections: each `left` goes
to the first list, each `right` to the second, appended in encounter
order. -/
def extendPair {L R : Type} : List L × List R → List (SplitEither L R) → List L × List R
  | p, [] => p
  | (ls, rs), .left l :: rest => extendPair (ls ++ [l], rs) rest
  | (ls, rs), .right r :: rest => extendPair (ls, rs ++ [r]) rest

/-- Attribute name for a field, `ident_to_pascal_case_string(ident.unwrap())`.
The `None` case panics in the source; it is unreachable because positional
fields with the attribute role are rejected before this point. -/
def fieldAttrName (f : Field) : String :=
  match f.ident with
  | some i => ident_to_pascal_case_string i
  | none => ""

/-- The per-field mapping of `build_calls_for_fields`: a verify call plus
either an attribute call or an element call. -/
def fieldToCalls (f : Field) : VerifyCall × SplitEither AttrCall ElemCall :=
  match f.options.is_attribute with
  | true => (.attribute f.accessor, .left ⟨f.accessor, fieldAttrName f⟩)
  | false => (.element f.accessor, .right ⟨f.accessor⟩)

/-- Model of `build_calls_for_fields`: maps each field to its calls and unzips into
the verify-call list and the pair of attribute-call and element-call lists,
all in declaration order. -/
def build_calls_for_fields (fields : List Field) :
    List VerifyCall × (List AttrCall × List ElemCall) :=
  ((fields.map fieldToCalls).map Prod.fst,
    extendPair ([], []) ((fields.map fieldToCalls).map Prod.snd))

/-! ## Namespace-declaration calls and the start-element builder -/

/-- A namespace declaration as it reaches the runtime builder: either the
default namespace (`xmlns="uri"`) or a prefixed one (`xmlns:pfx="uri"`). -/
inductive NsDecl where
  | defaultNs (uri : String)
  | prefixedNs (pfx uri : String)
deriving DecidableEq, Repr

/-- Model of `build_calls_for_namespaces`: one builder call per collected namespace,
in the order they were collected — `builder.default_ns(uri)` for a default
declaration, `builder.ns(prefix, uri)` for a prefixed one. -/
def build_calls_for_namespaces (namespaces : List XmlNamespace) : List NsDecl :=
  namespaces.map fun xmlns =>
    match xmlns with
    | .default uri => .defaultNs uri.asString
    | .prefixed pfx uri => .prefixedNs pfx.asString uri.asString

/-- One operation applied to a start-element builder, in application
order. -/
inductive BuilderOp where
  | nsOp (d : NsDecl)
  | attrOp (name value : String)
deriving DecidableEq, Repr

/-- The `xml-rs` `StartElementBuilder`, modelled as the element name plus
the ordered list of operations applied to it. -/
structure Builder where
  name : String
  ops : List BuilderOp
deriving DecidableEq, Repr

/-- The call `builder.default_ns(uri)`. -/
def Builder.defaultNs (b : Builder) (uri : String) : Builder :=
  { b with ops := b.ops ++ [.nsOp (.defaultNs uri)] }

/-- The call `builder.ns(prefix, uri)`. -/
def Builder.nsDecl (b : Builder) (pfx uri : String) : Builder :=
  { b with ops := b.ops ++ [.nsOp (.prefixedNs pfx uri)] }

/-- The call `builder.attr(name, value)`. -/
def Builder.attr (b : Builder) (name value : String) : Builder :=
  { b with ops := b.ops ++ [.attrOp name value] }

/-- Apply one emitted namespace call to the builder. -/
def applyNsCall (b : Builder) (d : NsDecl) : Builder :=
  match d with
  | .defaultNs uri => b.defaultNs uri
  | .prefixedNs pfx uri => b.nsDecl pfx uri

/-- Apply the emitted namespace calls in order. -/
def applyNsCalls (b : Builder) (ds : List NsDecl) : Builder :=
  ds.foldl applyNsCall b

/-- A runtime attribute-capable value: the only `XmlAttribute`
implementations the runtime module provides are `String` and
`Option<String>`. -/
inductive AttrValue where
  | str (s : String)
  | optStr (o : Option String)
deriving DecidableEq, Repr

/-- Model of `write_as_attribute` from `xml.rs`: a `String` adds the attribute; an
absent `Option<String>` returns the builder untouched, a present one adds
the attribute. -/
def writeAsAttribute (v : AttrValue) (b : Builder) (attrName : String) : Builder :=
  match v with
  | .str s => b.attr attrName s
  | .optStr (some s) => b.attr attrName s
  | .optStr none => b

/-- Apply each attribute-role field's `write_as_attribute` call in
declaration order, each given its serialized attribute name. -/
def applyAttrCalls (b : Builder) (fs : List (AttrValue × String)) : Builder :=
  fs.foldl (fun b f => writeAsAttribute f.1 b f.2) b

/-- The start-element builder a generated struct writer constructs: the
element name, then namespace calls, then attribute-field calls. -/
def mkStartBuilder (name : String) (nss : List NsDecl) (attrs : List (AttrValue × String)) :
    Builder :=
  applyAttrCalls (applyNsCalls ⟨name, []⟩ nss) attrs

/-! ## The runtime event writer -/

/-- An XML writer event, as passed to `xml::EventWriter::write`. -/
inductive XmlEvent where
  | startElement (b : Builder)
  | characters (s : String)
  | endElement
deriving DecidableEq, Repr

/-- One `writer.write(event)` call.  `oracle n` decides whether the `n`-th
write on this writer fails and with which error (this abstracts the
underlying I/O sink); on failure the error is paired with the log of writes
already performed — no event is added. -/
def writeEvent {ε : Type} (oracle : Nat → Option ε) (ev : XmlEvent) (log : List XmlEvent) :
    Except (ε × List XmlEvent) (List XmlEvent) :=
  match oracle log.length with
  | some e => .error (e, log)
  | none => .ok (log ++ [ev])

/-- Perform a sequence of `writer.write` calls, stopping at the first
failure (the `?` operator in the generated code). -/
def runWrites {ε : Type} (oracle : Nat → Option ε) (events : List XmlEvent)
    (log : List XmlEvent) : Except (ε × List XmlEvent) (List XmlEvent) :=
  match events with
  | [] => .ok log
  | ev :: rest => (writeEvent oracle ev log).bind (runWrites oracle rest)

/-- The failure schedule of a writer that never fails. -/
def noFailure {ε : Type} : Nat → Option ε := fun _ => none

/-! ## The derive pipeline

`write_element_derivation_for_struct` / `_for_enum` analyze the declared
shape and produce the writer logic.  We model the produced writer as a
"plan" holding everything the emitted code closes over; build-time panics
and `Err` results become `Except.error` with the source's messages. -/

/-- The declared fields of a struct or of one enum variant: named fields
(each with its `xml_serialize` meta items), positional fields, or none. -/
inductive FieldsShape where
  | named (fields : List (String × List Meta))
  | unnamed (fields : List (List Meta))
  | unit
deriving DecidableEq, Repr

/-- One declared enum variant. -/
structure Variant where
  ident : String
  fields : FieldsShape
deriving DecidableEq, Repr

/-- Process named fields: parse each field's options; the accessor is
produced by `mk` from the field name (`self.name` for structs, the binding
`name` for enum variants). -/
def collectNamedFields (mk : String → String) :
    List (String × List Meta) → Except String (List Field)
  | [] => .ok []
  | (name, metas) :: rest => do
    let options ← FieldOptions.tryFrom metas
    let fields ← collectNamedFields mk rest
    .ok ({ ident := some name, accessor := mk name, options := options } :: fields)

/-- Process positional fields: parse each field's options and reject the
attribute role (`panic!("Unnamed fields may not be XML attributes")`); the
accessor is produced by `mk` from the field index. -/
def collectUnnamedFields (mk : Nat → String) (start : Nat) :
    List (List Meta) → Except String (List Field)
  | [] => .ok []
  | metas :: rest => do
    let options ← FieldOptions.tryFrom metas
    if options.is_attribute then
      .error "Unnamed fields may not be XML attributes"
    else do
      let fields ← collectUnnamedFields mk (start + 1) rest
      .ok ({ ident := none, accessor := mk start, options := options } :: fields)

/-- The writer logic emitted for a struct: element name (`none` models a
failed `const` evaluation of the name concatenation), namespace calls,
verify calls, and the attribute/element call split. -/
structure StructPlan where
  elementName : Option String
  nsCalls : List NsDecl
  verifyCalls : List VerifyCall
  attrCalls : List AttrCall
  elemCalls : List ElemCall
deriving DecidableEq, Repr

/-- Model of `write_element_derivation_for_struct`. -/
def write_element_derivation_for_struct (ident : String) (data : FieldsShape)
    (options : TypeOptions) : Except String StructPlan := do
  let fields ←
    match data with
    | .named fs => collectNamedFields (fun name => "self." ++ name) fs
    | .unnamed fs => collectUnnamedFields (fun i => "self." ++ toString i) 0 fs
    | .unit => .ok []
  let (verifyCalls, (attrCalls, elemCalls)) := build_calls_for_fields fields
  .ok { elementName := build_element_name ident (options.nsPrefix.map AnnValue.asString)
        nsCalls := build_calls_for_namespaces options.namespaces
        verifyCalls := verifyCalls
        attrCalls := attrCalls
        elemCalls := elemCalls }

/-- The writer logic emitted for an all-unit-variant enum: element name,
namespace calls, and per-variant text (the variant identifier). -/
structure UnitEnumPlan where
  elementName : Option String
  nsCalls : List NsDecl
  variantTexts : List String
deriving DecidableEq, Repr

/-- The match arms of `write_element_derivation_for_unit_enum`: each unit
variant contributes its identifier string; a non-unit variant is the
mixing panic. -/
def unitEnumVariantTexts : List Variant → Except String (List String)
  | [] => .ok []
  | v :: rest =>
    match v.fields with
    | .unit => (unitEnumVariantTexts rest).map (v.ident :: ·)
    | _ => .error "Mixing unit and non-unit variants in an enum is not supported"

/-- Model of `write_element_derivation_for_unit_enum`. -/
def write_element_derivation_for_unit_enum (ident : String) (variants : List Variant)
    (options : TypeOptions) : Except String UnitEnumPlan := do
  let texts ← unitEnumVariantTexts variants
  .ok { elementName := build_element_name ident (options.nsPrefix.map AnnValue.asString)
        nsCalls := build_calls_for_namespaces options.namespaces
        variantTexts := texts }

/-- One match arm of a structured-enum writer: a named-field variant wraps
its fields in an element named after the variant; a positional-field
variant writes its field values bare, with no wrapping element. -/
inductive VariantArm where
  | wrapped (elementName : Option String) (nsCalls : List NsDecl)
      (verifyCalls : List VerifyCall) (attrCalls : List AttrCall) (elemCalls : List ElemCall)
  | bare (verifyCalls : List VerifyCall) (elemCalls : List ElemCall)
deriving DecidableEq, Repr

/-- The variant arms of `write_element_derivation_for_structured_enum`.
The namespace calls and prefix are type-level and reused per named-field
variant; a positional-field variant rejects them; a unit variant is the
mixing panic. -/
def structuredEnumArms (options : TypeOptions) (xmlnsCalls : List NsDecl) :
    List Variant → Except String (List VariantArm)
  | [] => .ok []
  | v :: rest =>
    match v.fields with
    | .named fs => do
      let fields ← collectNamedFields id fs
      let (verifyCalls, (attrCalls, elemCalls)) := build_calls_for_fields fields
      let arms ← structuredEnumArms options xmlnsCalls rest
      .ok (.wrapped (build_element_name v.ident (options.nsPrefix.map AnnValue.asString))
            xmlnsCalls verifyCalls attrCalls elemCalls :: arms)
    | .unnamed fs =>
      if xmlnsCalls ≠ [] ∨ options.nsPrefix.isSome then
        .error "Namespace properties may not be applied to enums with variants containing unnamed fields"
      else do
        let fields ← collectUnnamedFields (fun i => "field" ++ toString i) 0 fs
        let (verifyCalls, (_, elemCalls)) := build_calls_for_fields fields
        let arms ← structuredEnumArms options xmlnsCalls rest
        .ok (.bare verifyCalls elemCalls :: arms)
    | .unit => .error "Mixing unit and non-unit variants in an enum is not supported"

/-- Model of `write_element_derivation_for_structured_enum`. -/
def write_element_derivation_for_structured_enum (variants : List Variant)
    (options : TypeOptions) : Except String (List VariantArm) :=
  structuredEnumArms options (build_calls_for_namespaces options.namespaces) variants

/-- The writer logic emitted for an enum: one of the two designs. -/
inductive EnumPlan where
  | unitEnum (p : UnitEnumPlan)
  | structured (arms : List VariantArm)
deriving DecidableEq, Repr

/-- Model of `write_element_derivation_for_enum`: reject zero-variant enums, then
dispatch on the shape of the FIRST variant only. -/
def write_element_derivation_for_enum (ident : String) (variants : List Variant)
    (options : TypeOptions) : Except String EnumPlan :=
  match variants with
  | [] => .error "Deriving `XmlElement` is not supported for zero-variant enums"
  | v0 :: _ =>
    match v0.fields with
    | .named _ | .unnamed _ =>
      (write_element_derivation_for_structured_enum variants options).map .structured
    | .unit =>
      (write_element_derivation_for_unit_enum ident variants options).map .unitEnum

/-! ## Runtime semantics of the generated writers

A field value's `write_as_element` call bottoms out in a sequence of
`writer.write` calls; each element-role field is therefore modelled by the
list of events its writer would emit. -/

/-- Run each element-role field's writes in declaration order, stopping at
the first failure. -/
def runFieldWrites {ε : Type} (oracle : Nat → Option ε) (fieldEvents : List (List XmlEvent))
    (log : List XmlEvent) : Except (ε × List XmlEvent) (List XmlEvent) :=
  match fieldEvents with
  | [] => .ok log
  | f :: rest => (runWrites oracle f log).bind (runFieldWrites oracle rest)

/-- The emitted struct writer body: write the start-element builder, then
each element-role field's events in order, then the end element — each
write behind `?`. -/
def runStructWriter {ε : Type} (b : Builder) (fieldEvents : List (List XmlEvent))
    (oracle : Nat → Option ε) (log : List XmlEvent) :
    Except (ε × List XmlEvent) (List XmlEvent) :=
  (writeEvent oracle (.startElement b) log).bind fun l1 =>
    (runFieldWrites oracle fieldEvents l1).bind fun l2 =>
      writeEvent oracle .endElement l2

/-- The emitted unit-enum writer body: start element (with namespace
calls), the matched variant's text, end element. -/
def runUnitEnumWriter {ε : Type} (name : String) (nss : List NsDecl) (text : String)
    (oracle : Nat → Option ε) (log : List XmlEvent) :
    Except (ε × List XmlEvent) (List XmlEvent) :=
  (writeEvent oracle (.startElement (applyNsCalls ⟨name, []⟩ nss)) log).bind fun l1 =>
    (writeEvent oracle (.characters text) l1).bind fun l2 =>
      writeEvent oracle .endElement l2

/-- The emitted arm for a named-field variant: exactly a struct writer
keyed off the variant. -/
def runWrappedArm {ε : Type} (name : String) (nss : List NsDecl)
    (attrs : List (AttrValue × String)) (fieldEvents : List (List XmlEvent))
    (oracle : Nat → Option ε) (log : List XmlEvent) :
    Except (ε × List XmlEvent) (List XmlEvent) :=
  runStructWriter (mkStartBuilder name nss attrs) fieldEvents oracle log

/-- The emitted arm for a positional-field variant: the field writes only,
then `Ok(())` — no wrapping element. -/
def runBareArm {ε : Type} (fieldEvents : List (List XmlEvent))
    (oracle : Nat → Option ε) (log : List XmlEvent) :
    Except (ε × List XmlEvent) (List XmlEvent) :=
  runFieldWrites oracle fieldEvents log

/-! ## The generic container capability (xml.rs) -/

/-- Model of `impl XmlElement for Option<T>`: absent writes nothing, present
delegates to the contained value's writer `w`. -/
def optionWriteAsElement {ε α : Type}
    (w : α → List XmlEvent → Except (ε × List XmlEvent) (List XmlEvent)) :
    Option α → List XmlEvent → Except (ε × List XmlEvent) (List XmlEvent)
  | some component, log => w component log
  | none, log => .ok log

/-- Model of `impl XmlElement for Vec<T>`: `iter().map(write).collect::<Result>()` —
the contained writer runs once per item in order, stopping at the first
failure. -/
def vecWriteAsElement {ε α : Type}
    (w : α → List XmlEvent → Except (ε × List XmlEvent) (List XmlEvent)) :
    List α → List XmlEvent → Except (ε × List XmlEvent) (List XmlEvent)
  | [], log => .ok log
  | x :: rest, log => (w x log).bind (vecWriteAsElement w rest)

/-- Scan events tracking `(depth, count)`: `count` increases at each
start-element occurring at depth 0, i.e. it counts top-level sibling
elements. -/
def elemScanStep : XmlEvent → Nat × Nat → Nat × Nat
  | .startElement _, (d, c) => (d + 1, if d = 0 then c + 1 else c)
  | .endElement, (d, c) => (d - 1, c)
  | .characters _, st => st

/-- Fold `elemScanStep` over an event list. -/
def scanElems : List XmlEvent → Nat × Nat → Nat × Nat
  | [], st => st
  | e :: rest, st => scanElems rest (elemScanStep e st)

/-! ## Spec-side definitions

These definitions transcribe the specification's wording, for comparison
with the definitions taken from the source. -/

/-- Split a character list at underscores: the pieces between (and around)
the underscores, with every underscore deleted.  Returns the first piece
and the list of later pieces. -/
def splitU : List Char → List Char × List (List Char)
  | [] => ([], [])
  | c :: cs =>
    let (p, ps) := splitU cs
    if c = '_' then ([], p :: ps) else (c :: p, ps)

/-- Upper-case the first character of a piece (ASCII, as the source's
caveat restricts the claim to ASCII identifiers). -/
def capitalizeFirst : List Char → List Char
  | [] => []
  | c :: cs => toAsciiUppercase c :: cs

/-- The attribute-name conversion as the specification words it: delete
every underscore, upper-case the first letter and each letter that
immediately followed a deleted underscore, leave everything else
unchanged. -/
def spec_pascal_case (ident : String) : String :=
  ⟨(((splitU ident.toList).1 :: (splitU ident.toList).2).map capitalizeFirst).flatten⟩

/-- The element-name derivation as the specification words it:
`prefix + ":" + TypeName`, or just `TypeName` with no prefix; total. -/
def spec_element_name (ident : String) (pfx : Option String) : String :=
  match pfx with
  | none => ident
  | some p => p ++ ":" ++ ident

/-- Returns `true` iff the meta item is one of the recognized type-level annotation
keys (`default_ns`, `ns`, `ns_prefix` in name-value position). -/
def typeRecognizedKey : Meta → Bool
  | .nameValue key _ => key = "default_ns" || key = "ns" || key = "ns_prefix"
  | _ => false

/-- Returns `true` iff the meta item is the bare `attribute` path. -/
def pathIsAttribute : Meta → Bool
  | .path key => key = "attribute"
  | _ => false

/-- The namespace annotations of a meta list, read off in annotation
order. -/
def nsAnnotationsOf (ms : List Meta) : List XmlNamespace :=
  ms.filterMap fun m =>
    match m with
    | .nameValue key value =>
      if key = "default_ns" then some (.default value)
      else if key = "ns" then
        match value with
        | .tuple [p, u] => some (.prefixed (.str p) (.str u))
        | _ => none
      else none
    | _ => none

/-- The builder operations contributed by a list of attribute-role field
values: one `attr` op per present value, in order; absent options
contribute nothing. -/
def attrOpsOf (attrs : List (AttrValue × String)) : List BuilderOp :=
  attrs.filterMap fun av =>
    match av.1 with
    | .str s => some (.attrOp av.2 s)
    | .optStr (some s) => some (.attrOp av.2 s)
    | .optStr none => none

/-! ## Helper lemmas: PascalCase conversion -/

theorem pascalGo_splitU (l : List Char) :
    pascalGo l true =
      (((splitU l).1 :: (splitU l).2).map capitalizeFirst).flatten ∧
    pascalGo l false =
      (splitU l).1 ++ ((splitU l).2.map capitalizeFirst).flatten := by
  induction l with
  | nil => simp [pascalGo, splitU, capitalizeFirst]
  | cons c cs ih =>
    by_cases hc : c = '_'
    · subst hc
      simp only [pascalGo, splitU, if_pos rfl, List.map_cons, List.flatten_cons]
      refine ⟨?_, ?_⟩
      · rw [ih.1]
        simp [capitalizeFirst]
      · rw [ih.1]
        simp [capitalizeFirst]
    · simp only [pascalGo, splitU, if_neg hc, List.map_cons, List.flatten_cons]
      refine ⟨?_, ?_⟩
      · rw [ih.2]
        simp [capitalizeFirst]
      · rw [ih.2]
        simp

/-! ## Helper lemmas: the compile-time byte concatenation -/

/-- Overwrite `out` with `seg` starting at `pos` (the effect of a completed
copy loop). -/
def writeSeg : List Char → Nat → List Char → List Char
  | out, _, [] => out
  | out, pos, b :: rest => writeSeg (out.set pos b) (pos + 1) rest

theorem setAt_eq_some {α : Type} (l : List α) (n : Nat) (a : α) (h : n < l.length) :
    setAt l n a = some (l.set n a) := by
  induction l generalizing n with
  | nil => simp at h
  | cons x xs ih =>
    cases n with
    | zero => simp [setAt, List.set]
    | succ m =>
      simp only [setAt, List.set]
      rw [ih m (by simpa using h)]
      rfl

theorem writeSeg_cons (seg : List Char) (x : Char) (out : List Char) (pos : Nat) :
    writeSeg (x :: out) (pos + 1) seg = x :: writeSeg out pos seg := by
  induction seg generalizing out pos with
  | nil => rfl
  | cons b rest ih =>
    simp only [writeSeg, List.set]
    exact ih (out.set pos b) (pos + 1)

theorem writeSeg_append (seg pre out : List Char) :
    writeSeg (pre ++ out) pre.length seg = pre ++ writeSeg out 0 seg := by
  induction pre with
  | nil => simp
  | cons x pre' ih =>
    have : (x :: pre').length = pre'.length + 1 := rfl
    rw [List.cons_append, this, writeSeg_cons, ih]
    rfl

theorem writeSeg_zero (p out : List Char) (h : p.length ≤ out.length) :
    writeSeg out 0 p = p ++ out.drop p.length := by
  induction p generalizing out with
  | nil => simp [writeSeg]
  | cons b rest ih =>
    cases out with
    | nil => simp at h
    | cons o0 orest =>
      simp only [writeSeg, List.set, List.drop_succ_cons]
      rw [writeSeg_cons, ih orest (by simpa using h)]
      rfl

theorem copyLoop_spec (input out : List Char) (pos : Nat) (hne : input ≠ [])
    (hlen : pos + input.length ≤ out.length) :
    copyLoop input out pos = some (writeSeg out pos input) := by
  induction input generalizing out pos with
  | nil => exact absurd rfl hne
  | cons b rest ih =>
    have hpos : pos < out.length := by
      simp only [List.length_cons] at hlen; omega
    cases rest with
    | nil =>
      simp only [copyLoop, writeSeg]
      exact setAt_eq_some out pos b hpos
    | cons c rest' =>
      simp only [copyLoop]
      rw [setAt_eq_some out pos b hpos]
      simp only [Option.some_bind]
      rw [ih (out.set pos b) (pos + 1) (by simp)
        (by simp only [List.length_set, List.length_cons] at hlen ⊢; omega)]
      rfl

theorem dirty_concat_eq (p v : List Char) (hp : p ≠ []) (hv : v ≠ []) :
    dirty_concat p v = some (p ++ v) := by
  simp only [dirty_concat, copy_bytes_into]
  rw [copyLoop_spec p (List.replicate (p.length + v.length) (Char.ofNat 0)) 0 hp
    (by simp)]
  have h1 : writeSeg (List.replicate (p.length + v.length) (Char.ofNat 0)) 0 p
      = p ++ List.replicate v.length (Char.ofNat 0) := by
    rw [writeSeg_zero _ _ (by simp), List.drop_replicate]
    congr 1
    congr 1
    omega
  rw [h1]
  simp only [Option.bind_eq_bind, Option.some_bind]
  rw [copyLoop_spec v (p ++ List.replicate v.length (Char.ofNat 0)) p.length hv
    (by simp)]
  rw [writeSeg_append, writeSeg_zero _ _ (by simp)]
  simp

/-! ## Helper lemmas: the attribute/element call split -/

/-- The left projections of a list of `SplitEither` values, in order. -/
def eitherLefts {L R : Type} (items : List (SplitEither L R)) : List L :=
  items.filterMap fun i => match i with | .left l => some l | .right _ => none

/-- The right projections of a list of `SplitEither` values, in order. -/
def eitherRights {L R : Type} (items : List (SplitEither L R)) : List R :=
  items.filterMap fun i => match i with | .left _ => none | .right r => some r

theorem extendPair_eq {L R : Type} (items : List (SplitEither L R)) (ls : List L)
    (rs : List R) :
    extendPair (ls, rs) items = (ls ++ eitherLefts items, rs ++ eitherRights items) := by
  induction items generalizing ls rs with
  | nil => simp [extendPair, eitherLefts, eitherRights]
  | cons i rest ih =>
    cases i with
    | left l =>
      simp only [extendPair, ih, eitherLefts, eitherRights, List.filterMap_cons]
      simp
    | right r =>
      simp only [extendPair, ih, eitherLefts, eitherRights, List.filterMap_cons]
      simp

theorem build_calls_for_fields_split (fields : List Field) :
    build_calls_for_fields fields =
      (fields.map fun f =>
          match f.options.is_attribute with
          | true => .attribute f.accessor
          | false => .element f.accessor,
        ((fields.filter fun f => f.options.is_attribute).map fun f =>
            ⟨f.accessor, fieldAttrName f⟩,
          (fields.filter fun f => !f.options.is_attribute).map fun f => ⟨f.accessor⟩)) := by
  simp only [build_calls_for_fields, extendPair_eq, List.nil_append]
  refine congrArg₂ Prod.mk ?_ (congrArg₂ Prod.mk ?_ ?_)
  · induction fields with
    | nil => rfl
    | cons f rest ih =>
      simp only [List.map_cons, fieldToCalls]
      cases h : f.options.is_attribute <;> simp_all
  · induction fields with
    | nil => rfl
    | cons f rest ih =>
      simp only [List.map_cons, eitherLefts, List.filterMap_cons, fieldToCalls]
      cases h : f.options.is_attribute <;>
        simp_all [eitherLefts, List.filter_cons]
  · induction fields with
    | nil => rfl
    | cons f rest ih =>
      simp only [List.map_cons, eitherRights, List.filterMap_cons, fieldToCalls]
      cases h : f.options.is_attribute <;>
        simp_all [eitherRights, List.filter_cons]

/-! ## Helper lemmas: annotation parsing -/

theorem tryFromGo_namespaces (ms : List Meta) (pfx : Option AnnValue) (hasDefault : Bool)
    (acc : List XmlNamespace) (opts : TypeOptions)
    (h : TypeOptions.tryFromGo ms pfx hasDefault acc = .ok opts) :
    opts.namespaces = acc ++ nsAnnotationsOf ms := by
  induction ms generalizing pfx hasDefault acc with
  | nil =>
    simp only [TypeOptions.tryFromGo, Except.ok.injEq] at h
    simp [← h, nsAnnotationsOf]
  | cons m rest ih =>
    cases m with
    | nameValue key value =>
      simp only [TypeOptions.tryFromGo] at h
      by_cases hd : key = "default_ns"
      · rw [if_pos hd] at h
        cases hasDefault with
        | true => simp at h
        | false =>
          simp only [Bool.false_eq_true, if_false] at h
          rw [ih _ _ _ h]
          simp [nsAnnotationsOf, List.filterMap_cons, hd]
      · by_cases hn : key = "ns"
        · rw [if_neg hd, if_pos hn] at h
          match value with
          | .str s => simp at h
          | .tuple [] => simp at h
          | .tuple [p] => simp at h
          | .tuple [p, u] =>
            rw [ih _ _ _ h]
            simp [nsAnnotationsOf, List.filterMap_cons, hd, hn]
          | .tuple (p :: u :: x :: more) => simp at h
        · by_cases hp : key = "ns_prefix"
          · rw [if_neg hd, if_neg hn, if_pos hp] at h
            cases pfx with
            | some _ => simp at h
            | none =>
              simp only [Option.isSome_none, Bool.false_eq_true, if_false] at h
              rw [ih _ _ _ h]
              simp [nsAnnotationsOf, List.filterMap_cons, hd, hn]
          · rw [if_neg hd, if_neg hn, if_neg hp] at h
            simp at h
    | path key => simp [TypeOptions.tryFromGo] at h
    | metaList key => simp [TypeOptions.tryFromGo] at h

theorem tryFromGo_error_of_unrecognized (ms : List Meta) (pfx : Option AnnValue)
    (hasDefault : Bool) (acc : List XmlNamespace)
    (h : ∃ m ∈ ms, typeRecognizedKey m = false) :
    (TypeOptions.tryFromGo ms pfx hasDefault acc).isOk = false := by
  induction ms generalizing pfx hasDefault acc with
  | nil => simp at h
  | cons m rest ih =>
    obtain ⟨m0, hm0, hbad⟩ := h
    have hrest : m0 ∈ rest → (∃ m ∈ rest, typeRecognizedKey m = false) :=
      fun h0 => ⟨m0, h0, hbad⟩
    cases m with
    | nameValue key value =>
      simp only [TypeOptions.tryFromGo]
      by_cases hd : key = "default_ns"
      · rw [if_pos hd]
        cases hasDefault with
        | true => rfl
        | false =>
          simp only [Bool.false_eq_true, if_false]
          refine ih _ _ _ (hrest ?_)
          rcases List.mem_cons.mp hm0 with h0 | h0
          · subst h0; simp [typeRecognizedKey, hd] at hbad
          · exact h0
      · by_cases hn : key = "ns"
        · rw [if_neg hd, if_pos hn]
          match value with
          | .str s => rfl
          | .tuple [] => rfl
          | .tuple [p] => rfl
          | .tuple (p :: u :: x :: more) => rfl
          | .tuple [p, u] =>
            refine ih _ _ _ (hrest ?_)
            rcases List.mem_cons.mp hm0 with h0 | h0
            · subst h0; simp [typeRecognizedKey, hn] at hbad
            · exact h0
        · by_cases hp : key = "ns_prefix"
          · rw [if_neg hd, if_neg hn, if_pos hp]
            cases pfx with
            | some _ => rfl
            | none =>
              simp only [Option.isSome_none, Bool.false_eq_true, if_false]
              refine ih _ _ _ (hrest ?_)
              rcases List.mem_cons.mp hm0 with h0 | h0
              · subst h0; simp [typeRecognizedKey, hp] at hbad
              · exact h0
          · rw [if_neg hd, if_neg hn, if_neg hp]
            rfl
    | path key => rfl
    | metaList key => rfl

theorem fieldTryFromGo_error_of_nonpath (ms : List Meta) (acc : Bool)
    (h : ∃ m ∈ ms, m.isPath = false) :
    (FieldOptions.tryFromGo ms acc).isOk = false := by
  induction ms generalizing acc with
  | nil => simp at h
  | cons m rest ih =>
    obtain ⟨m0, hm0, hbad⟩ := h
    cases m with
    | path key =>
      simp only [FieldOptions.tryFromGo]
      refine ih _ ⟨m0, ?_, hbad⟩
      rcases List.mem_cons.mp hm0 with h0 | h0
      · subst h0; simp [Meta.isPath] at hbad
      · exact h0
    | nameValue key value => rfl
    | metaList key => rfl

theorem fieldTryFromGo_all_paths (ms : List Meta) (acc : Bool)
    (h : ∀ m ∈ ms, m.isPath = true) :
    FieldOptions.tryFromGo ms acc = .ok (acc || ms.any pathIsAttribute) := by
  induction ms generalizing acc with
  | nil => simp [FieldOptions.tryFromGo]
  | cons m rest ih =>
    cases m with
    | path key =>
      simp only [FieldOptions.tryFromGo]
      rw [ih _ (fun m hm => h m (List.mem_cons_of_mem _ hm))]
      simp [pathIsAttribute, Bool.or_assoc]
    | nameValue key value =>
      have := h _ (List.mem_cons_self _ _)
      simp [Meta.isPath] at this
    | metaList key =>
      have := h _ (List.mem_cons_self _ _)
      simp [Meta.isPath] at this

/-! ## Helper lemmas: builder operations -/

theorem applyNsCalls_ops (ds : List NsDecl) (b : Builder) :
    (applyNsCalls b ds).ops = b.ops ++ ds.map BuilderOp.nsOp := by
  induction ds generalizing b with
  | nil => simp [applyNsCalls]
  | cons d rest ih =>
    cases d with
    | defaultNs uri =>
      simp [applyNsCalls, List.foldl_cons, applyNsCall, Builder.defaultNs] at ih ⊢
      rw [ih]
      simp
    | prefixedNs pfx uri =>
      simp [applyNsCalls, List.foldl_cons, applyNsCall, Builder.nsDecl] at ih ⊢
      rw [ih]
      simp

theorem applyNsCalls_name (ds : List NsDecl) (b : Builder) :
    (applyNsCalls b ds).name = b.name := by
  induction ds generalizing b with
  | nil => rfl
  | cons d rest ih =>
    cases d <;> simp [applyNsCalls, List.foldl_cons, applyNsCall, Builder.defaultNs,
      Builder.nsDecl] at ih ⊢ <;> rw [ih]

theorem applyAttrCalls_ops (fs : List (AttrValue × String)) (b : Builder) :
    (applyAttrCalls b fs).ops = b.ops ++ attrOpsOf fs := by
  induction fs generalizing b with
  | nil => simp [applyAttrCalls, attrOpsOf]
  | cons f rest ih =>
    obtain ⟨v, n⟩ := f
    cases v with
    | str s =>
      simp only [applyAttrCalls, List.foldl_cons, writeAsAttribute, Builder.attr] at ih ⊢
      rw [ih]
      simp [attrOpsOf, List.filterMap_cons]
    | optStr o =>
      cases o with
      | some s =>
        simp only [applyAttrCalls, List.foldl_cons, writeAsAttribute, Builder.attr] at ih ⊢
        rw [ih]
        simp [attrOpsOf, List.filterMap_cons]
      | none =>
        simp only [applyAttrCalls, List.foldl_cons, writeAsAttribute] at ih ⊢
        rw [ih]
        simp [attrOpsOf, List.filterMap_cons]

theorem mkStartBuilder_ops (name : String) (nss : List NsDecl)
    (attrs : List (AttrValue × String)) :
    (mkStartBuilder name nss attrs).ops = nss.map BuilderOp.nsOp ++ attrOpsOf attrs := by
  simp [mkStartBuilder, applyAttrCalls_ops, applyNsCalls_ops]

/-! ## Helper lemmas: the event writer -/

theorem okBind {ε α β : Type} (a : α) (f : α → Except ε β) :
    (Except.ok a : Except ε α).bind f = f a := rfl

theorem errorBind {ε α β : Type} (e : ε) (f : α → Except ε β) :
    (Except.error e : Except ε α).bind f = .error e := rfl

theorem runWrites_append {ε : Type} (oracle : Nat → Option ε) (a b : List XmlEvent)
    (log : List XmlEvent) :
    runWrites oracle (a ++ b) log = (runWrites oracle a log).bind (runWrites oracle b) := by
  induction a generalizing log with
  | nil => rfl
  | cons ev rest ih =>
    simp only [List.cons_append, runWrites]
    cases writeEvent oracle ev log with
    | error e => simp only [errorBind]
    | ok log' => simp only [okBind]; exact ih log'

theorem runFieldWrites_flatten {ε : Type} (oracle : Nat → Option ε)
    (fieldEvents : List (List XmlEvent)) (log : List XmlEvent) :
    runFieldWrites oracle fieldEvents log = runWrites oracle fieldEvents.flatten log := by
  induction fieldEvents generalizing log with
  | nil => rfl
  | cons f rest ih =>
    simp only [runFieldWrites, List.flatten_cons, runWrites_append]
    cases runWrites oracle f log with
    | error e => simp only [errorBind]
    | ok log' => simp only [okBind, ih]

theorem runWrites_ok {ε : Type} (oracle : Nat → Option ε) (events : List XmlEvent)
    (log : List XmlEvent) (h : ∀ k, k < events.length → oracle (log.length + k) = none) :
    runWrites oracle events log = .ok (log ++ events) := by
  induction events generalizing log with
  | nil => simp [runWrites]
  | cons ev rest ih =>
    have h0 : oracle log.length = none := by simpa using h 0 (by simp)
    simp only [runWrites, writeEvent, h0, okBind]
    rw [ih (log ++ [ev]) (fun k hk => by
      have h1 := h (k + 1) (by simpa using Nat.succ_lt_succ hk)
      have h2 : (log ++ [ev]).length + k = log.length + (k + 1) := by
        simp only [List.length_append, List.length_cons, List.length_nil]
        omega
      rw [h2]; exact h1)]
    simp

theorem runWrites_error {ε : Type} (oracle : Nat → Option ε) (events : List XmlEvent)
    (log : List XmlEvent) (k : Nat) (e : ε) (hk : k < events.length)
    (hfail : oracle (log.length + k) = some e)
    (hok : ∀ j, j < k → oracle (log.length + j) = none) :
    runWrites oracle events log = .error (e, log ++ events.take k) := by
  induction events generalizing log k with
  | nil => simp at hk
  | cons ev rest ih =>
    cases k with
    | zero =>
      simp only [Nat.add_zero] at hfail
      simp [runWrites, writeEvent, hfail, errorBind]
    | succ k' =>
      have h0 : oracle log.length = none := by simpa using hok 0 (Nat.succ_pos _)
      simp only [runWrites, writeEvent, h0, okBind]
      have hlen : ∀ n : Nat, (log ++ [ev]).length + n = log.length + (n + 1) := by
        intro n
        simp only [List.length_append, List.length_cons, List.length_nil]
        omega
      rw [ih (log ++ [ev]) k' (by simpa using Nat.lt_of_succ_lt_succ hk)
        (by rw [hlen k']; exact hfail)
        (fun j hj => by
          rw [hlen j]
          exact hok (j + 1) (Nat.succ_lt_succ hj))]
      simp [List.take_succ_cons]

theorem runStructWriter_flat {ε : Type} (b : Builder) (fieldEvents : List (List XmlEvent))
    (oracle : Nat → Option ε) (log : List XmlEvent) :
    runStructWriter b fieldEvents oracle log =
      runWrites oracle (.startElement b :: (fieldEvents.flatten ++ [.endElement])) log := by
  simp only [runStructWriter, runWrites, runFieldWrites_flatten]
  cases writeEvent oracle (.startElement b) log with
  | error e => simp only [errorBind]
  | ok log' =>
    simp only [okBind, runWrites_append]
    cases runWrites oracle fieldEvents.flatten log' with
    | error e => simp only [errorBind]
    | ok log'' =>
      simp only [okBind, runWrites]
      cases writeEvent oracle XmlEvent.endElement log'' with
      | error e => rfl
      | ok l => rfl

/-! ## Helper lemmas: counting top-level sibling elements -/

theorem scanElems_append (a b : List XmlEvent) (st : Nat × Nat) :
    scanElems (a ++ b) st = scanElems b (scanElems a st) := by
  induction a generalizing st with
  | nil => rfl
  | cons e rest ih => simp [scanElems, ih]

theorem scanElems_flatten_map {α : Type} (out : α → List XmlEvent) (xs : List α)
    (h : ∀ x c, scanElems (out x) (0, c) = (0, c + 1)) :
    ∀ c, scanElems ((xs.map out).flatten) (0, c) = (0, c + xs.length) := by
  induction xs with
  | nil => intro c; simp [scanElems]
  | cons x rest ih =>
    intro c
    simp only [List.map_cons, List.flatten_cons, scanElems_append, h x c]
    rw [ih (c + 1)]
    simp only [List.length_cons]
    congr 1
    omega

/-! # Claim theorems -/

/-- C5: for every ASCII field identifier, the attribute-name conversion
returns the string obtained by deleting every underscore and upper-casing
the first letter and each letter that immediately followed a deleted
underscore, leaving all other characters unchanged. -/
theorem claim_c5_pascal_case (ident : String)
    (_hascii : ∀ c ∈ ident.toList, c.toNat < 128) :
    ident_to_pascal_case_string ident = spec_pascal_case ident := by
  simp only [ident_to_pascal_case_string, spec_pascal_case]
  exact congrArg String.mk (pascalGo_splitU ident.toList).1

/-- Witness for C5 at the spec's own example: `change_key` is ASCII and
converts to `ChangeKey`. -/
theorem claim_c5_pascal_case_witness :
    (∀ c ∈ ("change_key" : String).toList, c.toNat < 128) ∧
      ident_to_pascal_case_string "change_key" = spec_pascal_case "change_key" ∧
      ident_to_pascal_case_string "change_key" = "ChangeKey" :=
  ⟨by decide, claim_c5_pascal_case "change_key" (by decide), by decide⟩

/-- C3 counterexample: the concatenation is not total.  With the empty
string as declared prefix, the emitted `copy_bytes_into(prefix, …)` loop
reads `input[0]` of an empty input before its exit test, so `const`
evaluation fails; the claim's `prefix + ":" + TypeName` value is never
produced. -/
theorem claim_c3_counterexample :
    build_element_name "Envelope" (some "") = none ∧
      spec_element_name "Envelope" (some "") = ":Envelope" ∧
      build_element_name "Envelope" (some "") ≠
        some (spec_element_name "Envelope" (some "")) := by
  refine ⟨rfl, rfl, ?_⟩
  intro h
  exact Option.noConfusion h

/-- C3 amended: for every type identifier and every NONEMPTY declared
prefix, the byte-buffer concatenation equals ordinary string concatenation
`prefix ++ ":" ++ TypeName`; with no prefix the name is exactly `TypeName`;
with an empty prefix the `const` evaluation fails (out-of-bounds read), so
the derivation is not total. -/
theorem claim_c3_element_name (ident pfx : String) (hp : pfx ≠ "") :
    build_element_name ident (some pfx) = some (spec_element_name ident (some pfx)) ∧
      build_element_name ident none = some (spec_element_name ident none) ∧
      build_element_name ident (some "") = none := by
  refine ⟨?_, rfl, rfl⟩
  have hpl : pfx.toList ≠ [] := fun h => hp (by
    cases pfx with
    | mk data =>
      simp only [String.toList] at h
      subst h
      rfl)
  have hcolon : (":" ++ ident).toList = ':' :: ident.toList := by cases ident; rfl
  show (dirty_concat pfx.toList ((":" ++ ident).toList)).map (fun l => String.mk l) = _
  rw [dirty_concat_eq pfx.toList (":" ++ ident).toList hpl (by rw [hcolon]; simp)]
  simp only [Option.map_some']
  have hmk : String.mk (pfx.toList ++ (":" ++ ident).toList) = pfx ++ (":" ++ ident) := by
    cases pfx; cases (":" ++ ident); rfl
  rw [hmk, spec_element_name, ← String.append_assoc]

/-- Witness for C3 amended at the spec's example: prefix `x`, type name
`TypeName` gives element name `x:TypeName`. -/
theorem claim_c3_element_name_witness :
    ("x" : String) ≠ "" ∧
      (build_element_name "TypeName" (some "x") =
          some (spec_element_name "TypeName" (some "x")) ∧
        build_element_name "TypeName" none = some (spec_element_name "TypeName" none) ∧
        build_element_name "TypeName" (some "") = none) ∧
      build_element_name "TypeName" (some "x") = some "x:TypeName" :=
  ⟨by decide, claim_c3_element_name "TypeName" "x" (by decide), by decide⟩

/-- C4: the split of a field list into attribute-serialization calls and
element-serialization calls preserves declaration order within each list:
the attribute calls are exactly the attribute-role fields in declaration
order and the element calls are exactly the element-role fields in
declaration order, with no reordering, sorting, or grouping. -/
theorem claim_c4_field_split (fields : List Field) :
    (build_calls_for_fields fields).2.1 =
      ((fields.filter fun f => f.options.is_attribute).map fun f =>
        ⟨f.accessor, fieldAttrName f⟩) ∧
    (build_calls_for_fields fields).2.2 =
      ((fields.filter fun f => !f.options.is_attribute).map fun f => ⟨f.accessor⟩) := by
  rw [build_calls_for_fields_split]
  exact ⟨rfl, rfl⟩

/-- C1 counterexample: the namespace-declaration operations are NOT emitted
default-first; they keep annotation order.  Writing the `ns` annotation
before `default_ns` makes the prefixed declaration come first. -/
theorem claim_c1_counterexample :
    TypeOptions.tryFrom
        [.nameValue "ns" (.tuple ["t", "urn:b"]), .nameValue "default_ns" (.str "urn:a")] =
      .ok { nsPrefix := none,
            namespaces := [.prefixed (.str "t") (.str "urn:b"), .default (.str "urn:a")] } ∧
      build_calls_for_namespaces
          [.prefixed (.str "t") (.str "urn:b"), .default (.str "urn:a")] =
        [.prefixedNs "t" "urn:b", .defaultNs "urn:a"] ∧
      [NsDecl.prefixedNs "t" "urn:b", NsDecl.defaultNs "urn:a"] ≠
        [NsDecl.defaultNs "urn:a", NsDecl.prefixedNs "t" "urn:b"] :=
  ⟨rfl, rfl, by decide⟩

/-- C1 amended: the namespace-declaration operations on the root element
are emitted in the order the annotations were given — the default
declaration occupies its annotation position rather than necessarily coming
first — and all of them are applied to the start-element builder before any
attribute-role field's attribute. -/
theorem claim_c1_namespace_order (ms : List Meta) (opts : TypeOptions)
    (h : TypeOptions.tryFrom ms = .ok opts) :
    opts.namespaces = nsAnnotationsOf ms ∧
      ∀ (name : String) (attrs : List (AttrValue × String)),
        (mkStartBuilder name (build_calls_for_namespaces opts.namespaces) attrs).ops =
          (build_calls_for_namespaces opts.namespaces).map BuilderOp.nsOp ++
            attrOpsOf attrs := by
  constructor
  · simpa using tryFromGo_namespaces ms none false [] opts h
  · intro name attrs
    exact mkStartBuilder_ops name (build_calls_for_namespaces opts.namespaces) attrs

/-- The spec's example annotation list:
`default_ns = "urn:a", ns = ("t", "urn:b"), ns_prefix = "x"`. -/
def c1ExampleMeta : List Meta :=
  [.nameValue "default_ns" (.str "urn:a"), .nameValue "ns" (.tuple ["t", "urn:b"]),
    .nameValue "ns_prefix" (.str "x")]

/-- The options the source collects from `c1ExampleMeta`. -/
def c1ExampleOpts : TypeOptions :=
  { nsPrefix := some (.str "x"),
    namespaces := [.default (.str "urn:a"), .prefixed (.str "t") (.str "urn:b")] }

/-- Witness for C1 amended at the spec's example: `xmlns="urn:a"` then
`xmlns:t="urn:b"`, both before the attribute `ChangeKey`. -/
theorem claim_c1_namespace_order_witness :
    TypeOptions.tryFrom c1ExampleMeta = .ok c1ExampleOpts ∧
      c1ExampleOpts.namespaces = nsAnnotationsOf c1ExampleMeta ∧
      (mkStartBuilder "x:TypeName" (build_calls_for_namespaces c1ExampleOpts.namespaces)
          [(AttrValue.optStr (some "v"), "ChangeKey")]).ops =
        (build_calls_for_namespaces c1ExampleOpts.namespaces).map BuilderOp.nsOp ++
          attrOpsOf [(AttrValue.optStr (some "v"), "ChangeKey")] :=
  ⟨rfl, (claim_c1_namespace_order c1ExampleMeta c1ExampleOpts rfl).1,
    (claim_c1_namespace_order c1ExampleMeta c1ExampleOpts rfl).2 "x:TypeName"
      [(AttrValue.optStr (some "v"), "ChangeKey")]⟩

/-- C2 counterexample: at the field level an unrecognized BARE-PATH key
inside `xml_serialize` is silently accepted (it is not `attribute`, so it
contributes nothing), not a build-time error. -/
theorem claim_c2_counterexample :
    FieldOptions.tryFrom [.path "frobnicate"] = .ok { is_attribute := false } ∧
      (FieldOptions.tryFrom [.path "frobnicate"]).isOk = true :=
  ⟨rfl, rfl⟩

/-- C2 amended: at the type level every meta item that is not a recognized
name-value key (`default_ns`, `ns`, `ns_prefix`) makes the generator error;
at the field level a name-value or list-style item errors, but bare-path
keys are scanned only for `attribute` — an unrecognized bare-path key is
silently ignored. -/
theorem claim_c2_unrecognized_keys (ms ms' : List Meta) :
    ((∃ m ∈ ms, typeRecognizedKey m = false) → (TypeOptions.tryFrom ms).isOk = false) ∧
      ((∃ m ∈ ms', m.isPath = false) → (FieldOptions.tryFrom ms').isOk = false) ∧
      ((∀ m ∈ ms', m.isPath = true) →
        FieldOptions.tryFrom ms' = .ok { is_attribute := ms'.any pathIsAttribute }) := by
  refine ⟨fun h => tryFromGo_error_of_unrecognized ms none false [] h,
    fun h => ?_, fun h => ?_⟩
  · have herr := fieldTryFromGo_error_of_nonpath ms' false h
    simp only [FieldOptions.tryFrom]
    cases heq : FieldOptions.tryFromGo ms' false with
    | ok b => rw [heq] at herr; simp [Except.isOk, Except.toBool] at herr
    | error e => rfl
  · simp only [FieldOptions.tryFrom, fieldTryFromGo_all_paths ms' false h]
    rfl

/-- Witness for C2 amended: a bogus type-level key errors; a bogus
name-value field key errors; bare-path field keys are scanned only for
`attribute`. -/
theorem claim_c2_unrecognized_keys_witness :
    ((∃ m ∈ [Meta.path "bogus"], typeRecognizedKey m = false) ∧
        (TypeOptions.tryFrom [Meta.path "bogus"]).isOk = false) ∧
      ((∃ m ∈ [Meta.nameValue "bogus" (AnnValue.str "")], Meta.isPath m = false) ∧
        (FieldOptions.tryFrom [Meta.nameValue "bogus" (AnnValue.str "")]).isOk = false) ∧
      ((∀ m ∈ [Meta.path "attribute", Meta.path "bogus"], Meta.isPath m = true) ∧
        FieldOptions.tryFrom [Meta.path "attribute", Meta.path "bogus"] =
          .ok { is_attribute :=
            ([Meta.path "attribute", Meta.path "bogus"]).any pathIsAttribute }) :=
  ⟨⟨by decide,
      (claim_c2_unrecognized_keys [Meta.path "bogus"] []).1 (by decide)⟩,
    ⟨by decide,
      (claim_c2_unrecognized_keys [] [Meta.nameValue "bogus" (AnnValue.str "")]).2.1
        (by decide)⟩,
    ⟨by decide,
      (claim_c2_unrecognized_keys [] [Meta.path "attribute", Meta.path "bogus"]).2.2
        (by decide)⟩⟩

/-- C6: each invalid declaration halts generation with a build-time error:
a second `default_ns`, a second `ns_prefix`, an `attribute` role on a
positional field, an enum mixing unit and non-unit variants (in either
order), a namespace or prefix annotation on an enum having a
positional-field variant, and a zero-variant enum. -/
theorem claim_c6_build_errors :
    TypeOptions.tryFrom
        [.nameValue "default_ns" (.str "urn:a"), .nameValue "default_ns" (.str "urn:b")] =
      .error "there must be at most one `default_ns` declaration per type" ∧
    TypeOptions.tryFrom
        [.nameValue "ns_prefix" (.str "a"), .nameValue "ns_prefix" (.str "b")] =
      .error "there must be at most one `ns_prefix` declaration per type" ∧
    write_element_derivation_for_struct "S" (.unnamed [[Meta.path "attribute"]]) {} =
      .error "Unnamed fields may not be XML attributes" ∧
    write_element_derivation_for_enum "E" [⟨"A", .unit⟩, ⟨"B", .named [("x", [])]⟩] {} =
      .error "Mixing unit and non-unit variants in an enum is not supported" ∧
    write_element_derivation_for_enum "E" [⟨"B", .named [("x", [])]⟩, ⟨"A", .unit⟩] {} =
      .error "Mixing unit and non-unit variants in an enum is not supported" ∧
    write_element_derivation_for_enum "E" [⟨"A", .unnamed [[]]⟩]
        { nsPrefix := some (.str "x") } =
      .error
        "Namespace properties may not be applied to enums with variants containing unnamed fields" ∧
    write_element_derivation_for_enum "E" [⟨"A", .unnamed [[]]⟩]
        { namespaces := [.default (.str "urn:a")] } =
      .error
        "Namespace properties may not be applied to enums with variants containing unnamed fields" ∧
    write_element_derivation_for_enum "E" ([] : List Variant) {} =
      .error "Deriving `XmlElement` is not supported for zero-variant enums" :=
  ⟨rfl, rfl, rfl, rfl, rfl, rfl, rfl, rfl⟩

/-- C7: serializing an absent optional as an element writes nothing and as
an attribute returns the builder unchanged; a present optional delegates to
the contained value; a sequence invokes the contained element-writer once
per item in order, so the output is the in-order concatenation of the
items' writes, the number of emitted sibling elements equals the sequence
length, and an empty sequence emits nothing. -/
theorem claim_c7_containers {ε α : Type}
    (w : α → List XmlEvent → Except (ε × List XmlEvent) (List XmlEvent))
    (out : α → List XmlEvent) :
    (∀ log, optionWriteAsElement w none log = .ok log) ∧
      (∀ x log, optionWriteAsElement w (some x) log = w x log) ∧
      (∀ b n, writeAsAttribute (.optStr none) b n = b) ∧
      (∀ v b n, writeAsAttribute (.optStr (some v)) b n = writeAsAttribute (.str v) b n) ∧
      (∀ xs, (∀ x log, w x log = .ok (log ++ out x)) →
        ∀ log, vecWriteAsElement w xs log = .ok (log ++ (xs.map out).flatten)) ∧
      (∀ log, vecWriteAsElement w [] log = .ok log) ∧
      (∀ xs : List α, (∀ x c, scanElems (out x) (0, c) = (0, c + 1)) →
        (scanElems ((xs.map out).flatten) (0, 0)).2 = xs.length) := by
  refine ⟨fun log => rfl, fun x log => rfl, fun b n => rfl, fun v b n => rfl,
    fun xs hw => ?_, fun log => rfl, fun xs hsc => ?_⟩
  · induction xs with
    | nil => intro log; simp [vecWriteAsElement]
    | cons x rest ih =>
      intro log
      simp only [vecWriteAsElement, hw x log, okBind, List.map_cons, List.flatten_cons]
      rw [ih (log ++ out x)]
      simp
  · rw [scanElems_flatten_map out xs hsc 0]
    simp

/-- A sample contained-type writer for the C7 witness: each item writes one
(empty) element named after itself. -/
def c7W (x : String) (log : List XmlEvent) :
    Except (Unit × List XmlEvent) (List XmlEvent) :=
  .ok (log ++ [.startElement ⟨x, []⟩, .endElement])

/-- The events `c7W` emits per item. -/
def c7Out (x : String) : List XmlEvent := [.startElement ⟨x, []⟩, .endElement]

/-- Witness for C7: a two-item sequence emits both items' writes in order
and exactly two sibling elements; the hypotheses hold for `c7W`/`c7Out`. -/
theorem claim_c7_containers_witness :
    (∀ x log, c7W x log = .ok (log ++ c7Out x)) ∧
      vecWriteAsElement c7W ["A", "B"] [] = .ok ((["A", "B"].map c7Out).flatten) ∧
      (∀ x c, scanElems (c7Out x) (0, c) = (0, c + 1)) ∧
      (scanElems ((["A", "B"].map c7Out).flatten) (0, 0)).2 = (["A", "B"] : List String).length := by
  refine ⟨fun x log => rfl, ?_, fun x c => rfl, ?_⟩
  · simpa using (claim_c7_containers c7W c7Out).2.2.2.2.1 ["A", "B"] (fun x log => rfl) []
  · exact (claim_c7_containers c7W c7Out).2.2.2.2.2.2 ["A", "B"] (fun x c => rfl)

theorem bind_error_eq {ε α β : Type} (e : ε) (f : α → Except ε β) :
    (Except.error e : Except ε α) >>= f = .error e := rfl

theorem bind_ok_eq {ε α β : Type} (a : α) (f : α → Except ε β) :
    (Except.ok a : Except ε α) >>= f = f a := rfl

/-- If the unit-enum arm builder succeeds, the per-variant texts are
exactly the variant identifiers, in declaration order. -/
theorem unitEnumVariantTexts_map (vs : List Variant) (ts : List String)
    (h : unitEnumVariantTexts vs = .ok ts) : ts = vs.map Variant.ident := by
  induction vs generalizing ts with
  | nil =>
    simp only [unitEnumVariantTexts, Except.ok.injEq] at h
    simp [← h]
  | cons v rest ih =>
    cases hv : v.fields with
    | unit =>
      simp only [unitEnumVariantTexts, hv] at h
      cases heq : unitEnumVariantTexts rest with
      | error e => rw [heq] at h; simp [Except.map] at h
      | ok ts' =>
        rw [heq] at h
        simp only [Except.map, Except.ok.injEq] at h
        rw [← h, ih ts' heq]
        simp
    | named fs =>
      simp only [unitEnumVariantTexts, hv] at h
      exact Except.noConfusion h
    | unnamed fs =>
      simp only [unitEnumVariantTexts, hv] at h
      exact Except.noConfusion h

/-- Like `runFieldWrites_flatten`, for the `Vec` capability: running the
contained writer per item is one flat run of the concatenated events. -/
theorem vecWriteAsElement_flat {ε α : Type} (oracle : Nat → Option ε)
    (out : α → List XmlEvent) (xs : List α) (log : List XmlEvent) :
    vecWriteAsElement (fun x log => runWrites oracle (out x) log) xs log =
      runWrites oracle ((xs.map out).flatten) log := by
  induction xs generalizing log with
  | nil => rfl
  | cons x rest ih =>
    simp only [vecWriteAsElement, List.map_cons, List.flatten_cons, runWrites_append]
    cases runWrites oracle (out x) log with
    | error e => simp only [errorBind]
    | ok log' => simp only [okBind]; exact ih log'

/-- C8: for every all-unit-variant enum accepted by the generator, the
emitted texts are the variant identifiers, and the generated writer emits
exactly one element (carrying the namespace calls), the matched variant's
identifier as text content, and the matching end element — nothing else. -/
theorem claim_c8_unit_enum (ident : String) (variants : List Variant) (opts : TypeOptions)
    (plan : UnitEnumPlan) (name : String) (i : Nat) (hi : i < variants.length)
    (log : List XmlEvent)
    (hderive : write_element_derivation_for_enum ident variants opts = .ok (.unitEnum plan))
    (hname : plan.elementName = some name) :
    plan.variantTexts = variants.map Variant.ident ∧
      runUnitEnumWriter (ε := Unit) name plan.nsCalls (variants.get ⟨i, hi⟩).ident
          noFailure log =
        .ok (log ++ [.startElement (applyNsCalls ⟨name, []⟩ plan.nsCalls),
          .characters (variants.get ⟨i, hi⟩).ident, .endElement]) := by
  constructor
  · cases variants with
    | nil => simp [write_element_derivation_for_enum] at hderive
    | cons v0 rest =>
      cases hv : v0.fields with
      | named fs =>
        simp only [write_element_derivation_for_enum, hv] at hderive
        cases hs : write_element_derivation_for_structured_enum (v0 :: rest) opts with
        | error e => rw [hs] at hderive; simp [Except.map] at hderive
        | ok arms => rw [hs] at hderive; simp [Except.map] at hderive
      | unnamed fs =>
        simp only [write_element_derivation_for_enum, hv] at hderive
        cases hs : write_element_derivation_for_structured_enum (v0 :: rest) opts with
        | error e => rw [hs] at hderive; simp [Except.map] at hderive
        | ok arms => rw [hs] at hderive; simp [Except.map] at hderive
      | unit =>
        simp only [write_element_derivation_for_enum, hv] at hderive
        cases hu : write_element_derivation_for_unit_enum ident (v0 :: rest) opts with
        | error e => rw [hu] at hderive; simp [Except.map] at hderive
        | ok p =>
          rw [hu] at hderive
          simp only [Except.map, Except.ok.injEq, EnumPlan.unitEnum.injEq] at hderive
          subst hderive
          simp only [write_element_derivation_for_unit_enum] at hu
          cases ht : unitEnumVariantTexts (v0 :: rest) with
          | error e =>
            rw [ht, bind_error_eq] at hu
            exact Except.noConfusion hu
          | ok texts =>
            rw [ht, bind_ok_eq] at hu
            simp only [Except.ok.injEq] at hu
            rw [← hu]
            exact unitEnumVariantTexts_map _ _ ht
  · simp [runUnitEnumWriter, writeEvent, noFailure, okBind]

/-- Witness for C8: a two-variant unit enum `Traversal { Shallow, Deep }`
derives successfully and the writer for `Shallow` emits exactly the start
element, the text `Shallow`, and the end element. -/
theorem claim_c8_unit_enum_witness :
    write_element_derivation_for_enum "Traversal"
        [⟨"Shallow", .unit⟩, ⟨"Deep", .unit⟩] {} =
      .ok (.unitEnum
        { elementName := some "Traversal", nsCalls := [],
          variantTexts := ["Shallow", "Deep"] }) ∧
      runUnitEnumWriter (ε := Unit) "Traversal" [] "Shallow" noFailure [] =
        .ok [XmlEvent.startElement ⟨"Traversal", []⟩, XmlEvent.characters "Shallow",
          XmlEvent.endElement] := by
  constructor
  · rfl
  · have h := (claim_c8_unit_enum "Traversal" [⟨"Shallow", .unit⟩, ⟨"Deep", .unit⟩] {}
      { elementName := some "Traversal", nsCalls := [], variantTexts := ["Shallow", "Deep"] }
      "Traversal" 0 (by decide) [] rfl rfl).2
    simpa using h

/-- C9: a generated struct writer is one flat sequence of `writer.write`
calls (start element, each element-role field's writes in order, end
element), and so is the sequence writer; a flat sequence of writes runs to
completion when no write fails, and if the `k`-th write fails the writer
performs no further writes and returns that same error unchanged. -/
theorem claim_c9_error_propagation {ε α : Type} :
    (∀ (b : Builder) (fieldEvents : List (List XmlEvent)) (oracle : Nat → Option ε)
        (log : List XmlEvent),
      runStructWriter b fieldEvents oracle log =
        runWrites oracle (.startElement b :: (fieldEvents.flatten ++ [.endElement])) log) ∧
      (∀ (oracle : Nat → Option ε) (out : α → List XmlEvent) (xs : List α)
          (log : List XmlEvent),
        vecWriteAsElement (fun x log => runWrites oracle (out x) log) xs log =
          runWrites oracle ((xs.map out).flatten) log) ∧
      (∀ (events : List XmlEvent) (oracle : Nat → Option ε) (log : List XmlEvent),
        (∀ k, k < events.length → oracle (log.length + k) = none) →
        runWrites oracle events log = .ok (log ++ events)) ∧
      (∀ (events : List XmlEvent) (oracle : Nat → Option ε) (log : List XmlEvent)
          (k : Nat) (e : ε),
        k < events.length → oracle (log.length + k) = some e →
        (∀ j, j < k → oracle (log.length + j) = none) →
        runWrites oracle events log = .error (e, log ++ events.take k)) :=
  ⟨fun b fieldEvents oracle log => runStructWriter_flat b fieldEvents oracle log,
    fun oracle out xs log => vecWriteAsElement_flat oracle out xs log,
    fun events oracle log h => runWrites_ok oracle events log h,
    fun events oracle log k e hk hfail hok => runWrites_error oracle events log k e hk hfail hok⟩

/-- A failure schedule whose second write fails with error `7`. -/
def c9oracle : Nat → Option Nat := fun n => if n = 1 then some 7 else none

/-- Witness for C9: with a writer whose second write fails, a struct writer
stops after the start element and returns the error unchanged; with no
failure, a write sequence completes. -/
theorem claim_c9_error_propagation_witness :
    runStructWriter (⟨"S", []⟩ : Builder) [[XmlEvent.characters "a"]] c9oracle [] =
      .error (7, [XmlEvent.startElement ⟨"S", []⟩]) ∧
      runWrites (noFailure (ε := Nat)) [XmlEvent.endElement] [] = .ok [XmlEvent.endElement] := by
  constructor
  · have h1 := (claim_c9_error_propagation (ε := Nat) (α := Unit)).1
      ⟨"S", []⟩ [[XmlEvent.characters "a"]] c9oracle []
    have h2 := (claim_c9_error_propagation (ε := Nat) (α := Unit)).2.2.2
      [XmlEvent.startElement ⟨"S", []⟩, XmlEvent.characters "a", XmlEvent.endElement]
      c9oracle [] 1 7 (by decide) rfl
      (fun j hj => by
        have hj0 : j = 0 := by omega
        subst hj0
        rfl)
    rw [h1]
    simpa using h2
  · have h3 := (claim_c9_error_propagation (ε := Nat) (α := Unit)).2.2.1
      [XmlEvent.endElement] noFailure [] (fun k hk => rfl)
    simpa using h3

/-- C10: an enum mixing named-field and unnamed-field (non-unit) variants
is accepted — the unit-versus-structured dispatch inspects only the first
variant's shape — and each variant serializes per its own shape: a
named-field variant as a wrapping element keyed off the variant identifier,
an unnamed-field variant as its field values in order with no wrapping
element. -/
theorem claim_c10_mixed_enum :
    write_element_derivation_for_enum "E"
        [⟨"A", .named [("x", [])]⟩, ⟨"B", .unnamed [[], []]⟩] {} =
      .ok (.structured
        [.wrapped (some "A") [] [.element "x"] [] [⟨"x"⟩],
          .bare [.element "field0", .element "field1"] [⟨"field0"⟩, ⟨"field1"⟩]]) ∧
      write_element_derivation_for_enum "E"
          [⟨"B", .unnamed [[]]⟩, ⟨"A", .named [("x", [])]⟩] {} =
        .ok (.structured
          [.bare [.element "field0"] [⟨"field0"⟩],
            .wrapped (some "A") [] [.element "x"] [] [⟨"x"⟩]]) ∧
      (∀ (fe : List (List XmlEvent)) (log : List XmlEvent),
        runWrappedArm (ε := Unit) "A" [] [] fe noFailure log =
          .ok (log ++ [.startElement ⟨"A", []⟩] ++ fe.flatten ++ [.endElement])) ∧
      (∀ (fe : List (List XmlEvent)) (log : List XmlEvent),
        runBareArm (ε := Unit) fe noFailure log = .ok (log ++ fe.flatten)) := by
  refine ⟨rfl, rfl, fun fe log => ?_, fun fe log => ?_⟩
  · rw [runWrappedArm, show mkStartBuilder "A" [] [] = (⟨"A", []⟩ : Builder) from rfl,
      runStructWriter_flat, runWrites_ok _ _ _ (fun k hk => rfl)]
    simp
  · rw [runBareArm, runFieldWrites_flatten, runWrites_ok _ _ _ (fun k hk => rfl)]

end ThunderCell
